import Mathlib

/-
Verification of the topology-visualizer core of `batfish-lab`:
the hostname classification engine (`parsers/enhanced_hostname_parser.py`),
the position registry (`config.py`), the topology graph builder and the
layered 3D layout engine (`generate_3d_topology_enhanced.py`).

Modelling conventions:
* Python strings are modelled as lists of Unicode code points (`Str`);
  `str.lower`/`str.upper`/`str.strip` are modelled on the ASCII fragment,
  which is the fragment the parser vocabularies live in.
* Python floats are modelled as rationals (`ℚ`); every numeric constant of
  the registry (3.5, 0.3, 2.0, ...) is exactly representable.
* Python dicts used as read-only tables are modelled as association lists
  with first-match lookup; `dict.keys()` order is the literal order.
* `networkx.spring_layout` is an external library call; it is modelled as
  an explicit function parameter (`SpringFn`) receiving exactly the data
  the source passes it: the bucket's node list, the induced subgraph's
  edge list, the `k` spread, the iteration count and the integer seed.
  Only the `y` component of its 2D output is consumed by the source.
-/

attribute [local semireducible] Rat.add Rat.mul Rat.sub Rat.inv

namespace TopologyViz

/-! ### Strings as code-point lists -/

/-- A Python string, as its list of code points. -/
abbrev Str := List Nat

/-- Code points of a Lean string literal (for writing concrete hostnames). -/
def codes (s : String) : Str := s.data.map Char.toNat

/-- `str.lower` on one code point (ASCII fragment of Python `str.lower`). -/
def lowerChar (c : Nat) : Nat := if 65 ≤ c ∧ c ≤ 90 then c + 32 else c

/-- `str.upper` on one code point (ASCII fragment of Python `str.upper`). -/
def upperChar (c : Nat) : Nat := if 97 ≤ c ∧ c ≤ 122 then c - 32 else c

/-- `str.lower`. -/
def strLower (s : Str) : Str := s.map lowerChar

/-- `str.upper`. -/
def strUpper (s : Str) : Str := s.map upperChar

/-- ASCII whitespace, the characters `str.strip()` removes from hostnames. -/
def isSpace (c : Nat) : Bool := decide (c = 32) || (decide (9 ≤ c) && decide (c ≤ 13))

/-- `str.strip()`: drop whitespace from both ends. -/
def stripStr (s : Str) : Str :=
  ((s.dropWhile isSpace).reverse.dropWhile isSpace).reverse

/-- Python `<` on strings: lexicographic comparison of code points. -/
def lexLt : Str → Str → Bool
  | [], [] => false
  | [], _ :: _ => true
  | _ :: _, [] => false
  | a :: s, b :: t => decide (a < b) || (decide (a = b) && lexLt s t)

/-- Python `<=` on strings (total preorder used by `sorted`). -/
def lexLe (s t : Str) : Bool := !(lexLt t s)

/-- Python `sorted` on hostnames.  `sorted` is a stable sort for a total
order; since equal keys are identical strings here, any total-order sort
returns the same list, and a structurally recursive insertion sort is used
so concrete runs reduce inside the kernel. -/
def sortedStr (l : List Str) : List Str :=
  List.insertionSort (fun a b => lexLe a b = true) l

/-! ### The position registry (`config.py`) -/

/-- One entry of `TYPE_TO_ICON` / `DEFAULT_ICON` in `config.py`. -/
structure Icon where
  symbol : String
  size : Nat
  color : String
  description : String
deriving DecidableEq

/-- The static registry of `config.py`, passed explicitly (the source keeps
these as module-level constants read by every component). -/
structure Config where
  datacenters : List Str
  positionToZ : List (Str × ℚ)
  positionToLane : List (Str × Int)
  typeToIcon : List (Str × Icon)
  defaultIcon : Icon
  laneWidth : ℚ
  laneMin : Int
  laneMax : Int
  haPairDetection : Bool
  haPairOffset : ℚ
  springIterations : Nat
  springSeed : Nat
  yAxisSpread : ℚ
deriving DecidableEq

/-- `DEFAULT_ICON` of `config.py`. -/
def DEFAULT_ICON : Icon := ⟨"circle", 8, "#AAAAAA", "Unknown Device"⟩

/-- The shipped registry: every table of `config.py`, verbatim. -/
def defaultConfig : Config where
  datacenters :=
    [codes "npc", codes "wpc", codes "apc", codes "apd", codes "ukrc",
     codes "ukpc", codes "ch2", codes "va1", codes "ma5", codes "ld5"]
  positionToZ :=
    [(codes "igw", 5), (codes "pub", 9/2), (codes "co", 7/2), (codes "dc", 3),
     (codes "di", 5/2), (codes "lb", 2), (codes "acc", 3/2), (codes "wd", 1),
     (codes "prv", 1/2), (codes "csh", 0)]
  positionToLane :=
    [(codes "igw", 0), (codes "pub", 2), (codes "co", 0), (codes "dc", -2),
     (codes "di", 0), (codes "lb", -3), (codes "acc", 0), (codes "wd", -5),
     (codes "prv", 5), (codes "csh", 8)]
  typeToIcon :=
    [(codes "sr", ⟨"diamond", 12, "#FF6B6B", "Switch Router"⟩),
     (codes "sw", ⟨"square", 10, "#4ECDC4", "Switch"⟩),
     (codes "fw", ⟨"diamond-open", 14, "#FFD93D", "Firewall"⟩),
     (codes "lb", ⟨"circle", 11, "#95E1D3", "Load Balancer"⟩)]
  defaultIcon := DEFAULT_ICON
  laneWidth := 2
  laneMin := -10
  laneMax := 10
  haPairDetection := true
  haPairOffset := 3/10
  springIterations := 100
  springSeed := 42
  yAxisSpread := 3

/-- `get_z_layer` of `config.py`: `POSITION_TO_Z_LAYER.get(position, 1.5)`. -/
def get_z_layer (cfg : Config) (position : Str) : ℚ :=
  (cfg.positionToZ.lookup position).getD (3/2)

/-- `get_lane` of `config.py`: lane for a position, defaulted to the center
lane and clamped to `[LANE_MIN, LANE_MAX]`. -/
def get_lane (cfg : Config) (position : Str) : Int :=
  max cfg.laneMin (min cfg.laneMax ((cfg.positionToLane.lookup position).getD 0))

/-- `get_icon_config` of `config.py` (`None` keys fall to the default). -/
def get_icon_config (cfg : Config) (device_type : Option Str) : Icon :=
  match device_type with
  | some t => (cfg.typeToIcon.lookup t).getD cfg.defaultIcon
  | none => cfg.defaultIcon

/-- `get_lane_x_position` of `config.py`: `lane * LANE_WIDTH`. -/
def get_lane_x_position (cfg : Config) (lane : Int) : ℚ :=
  (lane : ℚ) * cfg.laneWidth

/-- `validate_config` of `config.py`, as the boolean "no errors collected":
the two position tables must have equal key sets and every configured lane
must lie within `[LANE_MIN, LANE_MAX]` (the error strings are elided). -/
def validate_config (cfg : Config) : Bool :=
  ((cfg.positionToZ.map (fun e => e.1)).all
      (fun k => decide (k ∈ cfg.positionToLane.map (fun e => e.1)))) &&
  ((cfg.positionToLane.map (fun e => e.1)).all
      (fun k => decide (k ∈ cfg.positionToZ.map (fun e => e.1)))) &&
  (cfg.positionToLane.all (fun pl => decide (cfg.laneMin ≤ pl.2) && decide (pl.2 ≤ cfg.laneMax)))

/-! ### The hostname classifier (`parsers/enhanced_hostname_parser.py`) -/

/-- The `parse_method` values the parser can report (`legacy` is produced by
the layout engine's fallback in `generate_3d_topology_enhanced.py`). -/
inductive ParseMethod where
  | full
  | type_count
  | nomatch
  | legacy
deriving DecidableEq

/-- The dict returned by `EnhancedHostnameParser.parse`, one field per key. -/
structure ParseResult where
  hostname : Str
  datacenter : Option Str
  position : Option Str
  type : Option Str
  counter : Option Str
  z_level : ℚ
  lane : Int
  lane_x : ℚ
  icon_config : Icon
  valid : Bool
  parse_method : ParseMethod
deriving DecidableEq

/-- `self.positions` of the parser: `list(POSITION_TO_Z_LAYER.keys())`. -/
def parserPositions (cfg : Config) : List Str := cfg.positionToZ.map (·.1)

/-- `self.types` of the parser: the icon-table keys, or the `['sr','sw']`
fallback when the icon table is empty. -/
def parserTypes (cfg : Config) : List Str :=
  if cfg.typeToIcon.isEmpty then [codes "sr", codes "sw"] else cfg.typeToIcon.map (·.1)

/-- One case-insensitive literal alternative of the compiled pattern: if the
lowercased vocabulary word is a prefix of `s`, return the matched slice of
`s` and the rest.  (`s` is the already lowercased cleaned hostname, so the
group text equals the slice of `s`.) -/
def matchWord (w s : Str) : Option (Str × Str) :=
  let w' := strLower w
  if w'.isPrefixOf s then some (s.take w'.length, s.drop w'.length) else none

/-- `\d` (ASCII decimal digit). -/
def isDigit (c : Nat) : Bool := decide (48 ≤ c) && decide (c ≤ 57)

/-- `\d{2}$`: the remaining text is exactly two digits. -/
def twoDigits (s : Str) : Bool := decide (s.length = 2) && s.all isDigit

/-- The anchored full pattern
`^(dc1|dc2|...)(pos1|...)(type1|...)(\d{2})$` with `re.IGNORECASE`:
alternatives of each group are tried in vocabulary order and the regex
engine backtracks, so the first datacenter/position/type decomposition in
that priority order wins. -/
def matchFull (cfg : Config) (s : Str) : Option (Str × Str × Str × Str) :=
  cfg.datacenters.findSome? fun dcWord =>
    (matchWord dcWord s).bind fun (dc, rest1) =>
      (parserPositions cfg).findSome? fun posWord =>
        (matchWord posWord rest1).bind fun (pos, rest2) =>
          (parserTypes cfg).findSome? fun tyWord =>
            (matchWord tyWord rest2).bind fun (ty, rest3) =>
              if twoDigits rest3 then some (dc, pos, ty, rest3) else none

/-- The anchored fallback pattern `^(type1|...)(\d{2})$`. -/
def matchTypeCount (cfg : Config) (s : Str) : Option (Str × Str) :=
  (parserTypes cfg).findSome? fun tyWord =>
    (matchWord tyWord s).bind fun (ty, rest) =>
      if twoDigits rest then some (ty, rest) else none

/-- The body of `EnhancedHostnameParser.parse` after
`hostname_clean = hostname.strip().lower()`: every returned field except
`hostname` depends only on the cleaned text, so the match cascade is
factored over it (the `hostname` field is overridden in `parse`). -/
def parseCore (cfg : Config) (hostname_clean : Str) : ParseResult :=
  match matchFull cfg hostname_clean with
  | some (datacenter, position, dev_type, counter) =>
      let lane := get_lane cfg position
      { hostname := []
        datacenter := some datacenter
        position := some position
        type := some dev_type
        counter := some counter
        z_level := get_z_layer cfg position
        lane := lane
        lane_x := get_lane_x_position cfg lane
        icon_config := get_icon_config cfg (some dev_type)
        valid := true
        parse_method := .full }
  | none =>
  match matchTypeCount cfg hostname_clean with
  | some (dev_type, counter) =>
      { hostname := []
        datacenter := none
        position := none
        type := some dev_type
        counter := some counter
        z_level := 3/2
        lane := 0
        lane_x := 0
        icon_config := get_icon_config cfg (some dev_type)
        valid := true
        parse_method := .type_count }
  | none =>
      { hostname := []
        datacenter := none
        position := none
        type := none
        counter := none
        z_level := 3/2
        lane := 0
        lane_x := 0
        icon_config := get_icon_config cfg none
        valid := false
        parse_method := .nomatch }

/-- `EnhancedHostnameParser.parse`: strip and lowercase, try the full
pattern, then the type+count pattern, else return the invalid record with
the mid-layer/center-lane defaults.  The `hostname` field always carries
the original (unstripped, case-preserved) argument. -/
def parse (cfg : Config) (hostname : Str) : ParseResult :=
  { parseCore cfg (strLower (stripStr hostname)) with hostname := hostname }

/-- `EnhancedHostnameParser.are_ha_pair`: both parses valid, same
datacenter, position and type (Python `None == None` is `True`), different
counters. -/
def are_ha_pair (cfg : Config) (hostname1 hostname2 : Str) : Bool :=
  let parsed1 := parse cfg hostname1
  let parsed2 := parse cfg hostname2
  parsed1.valid && parsed2.valid &&
  decide (parsed1.datacenter = parsed2.datacenter) &&
  decide (parsed1.position = parsed2.position) &&
  decide (parsed1.type = parsed2.type) &&
  decide (parsed1.counter ≠ parsed2.counter)

/-- The inner double loop of `find_ha_pairs`: for each element, pair it
with every later element that passes `are_ha_pair`. -/
def haPairsScan (cfg : Config) : List Str → List (Str × Str)
  | [] => []
  | h1 :: rest => (rest.filter (fun h2 => are_ha_pair cfg h1 h2)).map (fun h2 => (h1, h2))
      ++ haPairsScan cfg rest

/-- `EnhancedHostnameParser.find_ha_pairs`: sort the hostnames, then scan
all ordered index pairs `i < j`. -/
def find_ha_pairs (cfg : Config) (hostnames : List Str) : List (Str × Str) :=
  haPairsScan cfg (sortedStr hostnames)

/-! ### The topology graph builder (`load_topology_data`) -/

/-- The relation tag carried by every combined-graph edge
(`link_type` in `load_topology_data`). -/
inductive LinkType where
  | physical
  | hsrp
  | bgp
deriving DecidableEq

/-- One edge record of an input dataset (the relation-specific attributes
`group` / `peering_type` do not affect identity and are elided). -/
structure EdgeRec where
  source : Str
  target : Str
deriving DecidableEq

/-- One edge of the combined `nx.MultiGraph`. -/
structure CombinedEdge where
  source : Str
  target : Str
  link_type : LinkType
deriving DecidableEq

/-- The edge multiset of `graphs['combined']` built by `load_topology_data`:
`MultiGraph.add_edge` appends a new keyed parallel edge on every call, so
the combined edge list is the concatenation of the three tagged datasets —
nothing is merged or overwritten. -/
def combinedEdges (physical_edges hsrp_edges bgp_edges : List EdgeRec) : List CombinedEdge :=
  physical_edges.map (fun e => ⟨e.source, e.target, .physical⟩)
  ++ hsrp_edges.map (fun e => ⟨e.source, e.target, .hsrp⟩)
  ++ bgp_edges.map (fun e => ⟨e.source, e.target, .bgp⟩)

/-! ### The layered layout engine (`create_enhanced_3d_layout`) -/

/-- The input graph of the layout engine: node iteration order, the
`node_type` attributes, and the multigraph's edge endpoint list. -/
structure Graph where
  nodeList : List Str
  nodeType : List (Str × Str)
  edges : List (Str × Str)
deriving DecidableEq

/-- The legacy `node_type → Z` table inlined in `create_enhanced_3d_layout`
(`{'router': 4.0, 'core': 3.5, 'distribution': 2.5, 'access': 1.5}`,
default 1.5). -/
def legacyZMap (node_type : Str) : ℚ :=
  (List.lookup node_type
    [(codes "router", mkRat 4 1), (codes "core", mkRat 7 2),
     (codes "distribution", mkRat 5 2), (codes "access", mkRat 3 2)]).getD (mkRat 3 2)

/-- The classification the layout engine actually uses for a node: the
parser's result, or — when parsing failed — the synthetic `legacy` record
built from the graph's `node_type` attribute (note it sets `valid := true`
and reuses the attribute for both `position` and `type`; its inline icon
dict carries no description, modelled as the empty string). -/
def effParsed (cfg : Config) (g : Graph) (node : Str) : ParseResult :=
  let parsed := parse cfg node
  if parsed.valid then parsed else
    let node_type := (g.nodeType.lookup node).getD (codes "unknown")
    { hostname := node
      datacenter := none
      position := some node_type
      type := some node_type
      counter := none
      z_level := legacyZMap node_type
      lane := 0
      lane_x := get_lane_x_position cfg 0
      icon_config := ⟨"circle", 10, "#4ECDC4", ""⟩
      valid := true
      parse_method := .legacy }

/-- The datacenter-filter test: a node survives
`if datacenter_filter and parsed['datacenter'] != datacenter_filter` iff
there is no (truthy) filter or its effective datacenter equals it. -/
def inScope (cfg : Config) (g : Graph) (datacenter_filter : Option Str) (node : Str) : Bool :=
  match datacenter_filter with
  | none => true
  | some dc => decide (dc = []) || decide ((effParsed cfg g node).datacenter = some dc)

/-- The nodes the layout places: `graph.nodes()` restricted by the filter;
these are exactly the keys of the returned `pos_3d` dict. -/
def layoutScope (cfg : Config) (g : Graph) (d : Option Str) : List Str :=
  g.nodeList.filter (inScope cfg g d)

/-- The bucket of `nodes_by_layer_lane[z][lane]` containing `node`: the
in-scope nodes sharing its Z-level and lane, in node iteration order
(the order in which the source appends them). -/
def bucket (cfg : Config) (g : Graph) (d : Option Str) (node : Str) : List Str :=
  (layoutScope cfg g d).filter fun u =>
    decide ((effParsed cfg g u).z_level = (effParsed cfg g node).z_level) &&
    decide ((effParsed cfg g u).lane = (effParsed cfg g node).lane)

/-- `graph.subgraph(nodes)`: the edges with both endpoints in the bucket. -/
def inducedEdges (g : Graph) (nodes : List Str) : List (Str × Str) :=
  g.edges.filter (fun e => nodes.contains e.1 && nodes.contains e.2)

/-- The interface of `nx.spring_layout` as the source calls it:
bucket nodes, induced subgraph edges, `k`, `iterations`, `seed`, and the
queried node; the result is the `y` component of the returned 2D position
(the `x` component is discarded by the source). -/
abbrev SpringFn := List Str → List (Str × Str) → ℚ → Nat → Nat → Str → ℚ

/-- A 3D coordinate triple `(x, y, z)`. -/
abbrev Pos3 := ℚ × ℚ × ℚ

/-- The per-bucket placement pass of `create_enhanced_3d_layout` as the
mapping it builds: each in-scope node is placed exactly once, in its
unique `(z_level, lane)` bucket, at the lane's x position; a singleton
bucket sits at `y = 0`, a larger bucket takes `y` from the seeded spring
sub-layout scaled by `Y_AXIS_SPREAD`.  (Buckets are disjoint, so the
source's bucket iteration order does not affect the finished dict.) -/
def prePos (spring : SpringFn) (cfg : Config) (g : Graph) (d : Option Str)
    (node : Str) : Option Pos3 :=
  if node ∈ layoutScope cfg g d then
    let parsed := effParsed cfg g node
    let b := bucket cfg g d node
    let base_x := get_lane_x_position cfg parsed.lane
    if b.length = 1 then
      some (base_x, 0, parsed.z_level)
    else
      some (base_x,
        spring b (inducedEdges g b) cfg.yAxisSpread cfg.springIterations cfg.springSeed node
          * cfg.yAxisSpread,
        parsed.z_level)
  else none

/-- One iteration of the HA-pair offset loop: read both members' current
coordinates, then write `y1 - offset` and `y2 + offset` back (the second
write happens after the first, with coordinates read before either). -/
def haStep (offset : ℚ) (pos : Str → Option Pos3) (pr : Str × Str) : Str → Option Pos3 :=
  match pos pr.1, pos pr.2 with
  | some (x1, y1, z1), some (x2, y2, z2) =>
      fun v =>
        if v = pr.2 then some (x2, y2 + offset, z2)
        else if v = pr.1 then some (x1, y1 - offset, z1)
        else pos v
  | _, _ => pos

/-- The HA-pair offset pass, folded over the detected pair list. -/
def applyHaOffsets (offset : ℚ) (pairs : List (Str × Str)) (pos : Str → Option Pos3) :
    Str → Option Pos3 :=
  pairs.foldl (haStep offset) pos

/-- `create_enhanced_3d_layout` (enhanced branch): classify and bucket the
in-scope nodes, place each bucket, then — when HA-pair detection is on —
run `find_ha_pairs` over the laid-out node set and offset every detected
pair along `y`.  (`pos_3d.keys()` holds exactly the in-scope nodes, so the
pair detection runs on `layoutScope`; `find_ha_pairs` sorts its input, so
key order is immaterial.) -/
def create_enhanced_3d_layout (spring : SpringFn) (cfg : Config) (g : Graph)
    (datacenter_filter : Option Str) : Str → Option Pos3 :=
  let pos := prePos spring cfg g datacenter_filter
  if cfg.haPairDetection then
    applyHaOffsets cfg.haPairOffset
      (find_ha_pairs cfg (layoutScope cfg g datacenter_filter)) pos
  else pos

/-- The accumulated `y` shift a node receives from the offset pass:
`offset` times (occurrences as second member − occurrences as first). -/
def netDelta (offset : ℚ) (pairs : List (Str × Str)) (v : Str) : ℚ :=
  offset * ((pairs.countP (fun pr => decide (pr.2 = v)) : ℚ)
    - (pairs.countP (fun pr => decide (pr.1 = v)) : ℚ))

/-- The structural part of the HA test: both hostnames parse as valid and
agree on datacenter, position and device type. -/
def sameStructure (cfg : Config) (a b : Str) : Bool :=
  decide ((parse cfg a).valid = true ∧ (parse cfg b).valid = true ∧
    (parse cfg a).datacenter = (parse cfg b).datacenter ∧
    (parse cfg a).position = (parse cfg b).position ∧
    (parse cfg a).type = (parse cfg b).type)

/-- The per-cluster distinct-counter hypothesis over a node set: no two
distinct hostnames share datacenter, position, type and counter. -/
def DistinctCounters (cfg : Config) (scope : List Str) : Prop :=
  ∀ a ∈ scope, ∀ b ∈ scope, a ≠ b → sameStructure cfg a b = true →
    (parse cfg a).counter ≠ (parse cfg b).counter

instance (cfg : Config) (scope : List Str) : Decidable (DistinctCounters cfg scope) := by
  unfold DistinctCounters
  infer_instance

/-- A sub-layout outcome placing every queried node at `y = 0` (one
possible behaviour of the abstracted spring call). -/
def springZero : SpringFn := fun _ _ _ _ _ _ => 0

/-- A one-node graph. -/
def graphSingle : Graph :=
  { nodeList := [codes "npccosr01"], nodeType := [], edges := [] }

/-- A two-node graph holding one HA pair. -/
def graphPair : Graph :=
  { nodeList := [codes "npccosr01", codes "npccosr02"], nodeType := [], edges := [] }

/-- Four case-variants of one HA cluster: three hostnames carry counter 02
and one carries counter 01, all parsing to the same npc/co/sr structure. -/
def graphQuad : Graph :=
  { nodeList := [codes "NPCCOSR02", codes "Npccosr02", codes "npccosr01", codes "npccosr02"],
    nodeType := [], edges := [] }

/-- The shipped registry with the "co" lane driven out of bounds (99 is
outside `[LANE_MIN, LANE_MAX] = [-10, 10]`). -/
def badLaneConfig : Config :=
  { defaultConfig with
    positionToLane :=
      [(codes "igw", 0), (codes "pub", 2), (codes "co", 99), (codes "dc", -2),
       (codes "di", 0), (codes "lb", -3), (codes "acc", 0), (codes "wd", -5),
       (codes "prv", 5), (codes "csh", 8)] }

/-! ### Helper lemmas: case maps and cleaning -/

theorem lowerChar_upperChar (c : Nat) :
    lowerChar (upperChar c) = lowerChar (lowerChar c) := by
  unfold lowerChar upperChar
  split_ifs <;> omega

theorem isSpace_upperChar (c : Nat) : isSpace (upperChar c) = isSpace c := by
  rw [Bool.eq_iff_iff]
  unfold isSpace upperChar
  split_ifs with h
  · simp
    omega
  · exact Iff.rfl

theorem isSpace_lowerChar (c : Nat) : isSpace (lowerChar c) = isSpace c := by
  rw [Bool.eq_iff_iff]
  unfold isSpace lowerChar
  split_ifs with h
  · simp
    omega
  · exact Iff.rfl

theorem stripStr_map (f : Nat → Nat) (hf : ∀ c, isSpace (f c) = isSpace c) (s : Str) :
    stripStr (s.map f) = (stripStr s).map f := by
  have hcomp : isSpace ∘ f = isSpace := funext hf
  unfold stripStr
  rw [List.dropWhile_map, hcomp, ← List.map_reverse, List.dropWhile_map, hcomp,
    ← List.map_reverse]

theorem clean_strUpper_eq_clean_strLower (h : Str) :
    strLower (stripStr (strUpper h)) = strLower (stripStr (strLower h)) := by
  unfold strUpper strLower
  rw [stripStr_map upperChar isSpace_upperChar, stripStr_map lowerChar isSpace_lowerChar,
    List.map_map, List.map_map]
  exact List.map_congr_left fun c _ => lowerChar_upperChar c

/-- All fields except the raw `hostname` are a function of the cleaned
hostname alone. -/
theorem parse_congr_clean (cfg : Config) {s1 s2 : Str}
    (h : strLower (stripStr s1) = strLower (stripStr s2)) :
    { parse cfg s1 with hostname := [] } = { parse cfg s2 with hostname := [] } := by
  unfold parse
  rw [h]

/-! ### Helper lemmas: the HA-pair scan -/

theorem are_ha_pair_ne {cfg : Config} {p q : Str} (h : are_ha_pair cfg p q = true) :
    p ≠ q := by
  rintro rfl
  simp [are_ha_pair] at h

theorem haPairsScan_cons (cfg : Config) (h1 : Str) (rest : List Str) :
    haPairsScan cfg (h1 :: rest)
      = (rest.filter (fun h2 => are_ha_pair cfg h1 h2)).map (fun h2 => (h1, h2))
        ++ haPairsScan cfg rest := rfl

/-- Every scanned pair has both endpoints in the list and passes the
HA test. -/
theorem mem_haPairsScan {cfg : Config} {pr : Str × Str} :
    ∀ {l : List Str}, pr ∈ haPairsScan cfg l →
      pr.1 ∈ l ∧ pr.2 ∈ l ∧ are_ha_pair cfg pr.1 pr.2 = true := by
  intro l
  induction l with
  | nil => intro h; simp [haPairsScan] at h
  | cons a t ih =>
    intro h
    rw [haPairsScan_cons] at h
    rcases List.mem_append.1 h with h1 | h2
    · rcases List.mem_map.1 h1 with ⟨x, hx, hxe⟩
      rcases List.mem_filter.1 hx with ⟨hxt, hha⟩
      cases hxe
      exact ⟨List.mem_cons_self a t, List.mem_cons_of_mem _ hxt, hha⟩
    · rcases ih h2 with ⟨h1m, h2m, hha⟩
      exact ⟨List.mem_cons_of_mem _ h1m, List.mem_cons_of_mem _ h2m, hha⟩

/-- A scanned pair `(p, q)` splits its list: `p` appears strictly before
`q`. -/
theorem exists_split_of_mem_haPairsScan {cfg : Config} {p q : Str} :
    ∀ {l : List Str}, (p, q) ∈ haPairsScan cfg l →
      are_ha_pair cfg p q = true ∧ ∃ A B C, l = A ++ p :: (B ++ q :: C) := by
  intro l
  induction l with
  | nil => intro h; simp [haPairsScan] at h
  | cons a t ih =>
    intro h
    rw [haPairsScan_cons] at h
    rcases List.mem_append.1 h with h1 | h2
    · rcases List.mem_map.1 h1 with ⟨x, hx, hxe⟩
      injection hxe with e1 e2
      subst e1
      subst e2
      rcases List.mem_filter.1 hx with ⟨hxt, hha⟩
      rcases List.append_of_mem hxt with ⟨B, C, rfl⟩
      exact ⟨hha, [], B, C, rfl⟩
    · rcases ih h2 with ⟨hha, A, B, C, rfl⟩
      exact ⟨hha, a :: A, B, C, rfl⟩

/-- In a duplicate-free list, an element decides at most one position:
counting the conjunction of `x = v` with any further test `f` collapses
to evaluating `f` at `v`. -/
theorem countP_decide_and_of_nodup {α : Type} [DecidableEq α] (f : α → Bool) :
    ∀ {l : List α} {v : α}, l.Nodup → v ∈ l →
      l.countP (fun x => decide (x = v) && f x) = if f v then 1 else 0 := by
  intro l
  induction l with
  | nil => intro v _ h; cases h
  | cons b t ih =>
    intro v hnd hv
    rcases List.nodup_cons.1 hnd with ⟨hbt, hndt⟩
    rw [List.countP_cons]
    rcases List.mem_cons.1 hv with rfl | hvt
    · have h0 : t.countP (fun x => decide (x = v) && f x) = 0 := by
        apply List.countP_eq_zero.2
        intro x hx he
        exact hbt ((of_decide_eq_true ((Bool.and_eq_true _ _).mp he).1) ▸ hx)
      rw [h0]
      simp
    · have hbv : ¬(b = v) := fun e => hbt (e ▸ hvt)
      rw [ih hndt hvt]
      simp [hbv]

theorem countP_decide_eq_one {α : Type} [DecidableEq α] {l : List α} {v : α}
    (hnd : l.Nodup) (hv : v ∈ l) :
    l.countP (fun x => decide (x = v)) = 1 := by
  have h := countP_decide_and_of_nodup (fun _ => true) hnd hv
  simpa using h

/-- On a duplicate-free list, a scanned pair is produced exactly once. -/
theorem countP_pair_haPairsScan {cfg : Config} {p q : Str} :
    ∀ {l : List Str}, l.Nodup → (p, q) ∈ haPairsScan cfg l →
      (haPairsScan cfg l).countP (fun pr => decide (pr = (p, q))) = 1 := by
  intro l
  induction l with
  | nil => intro _ h; simp [haPairsScan] at h
  | cons a t ih =>
    intro hnd hmem
    rcases List.nodup_cons.1 hnd with ⟨hat, hndt⟩
    rw [haPairsScan_cons] at hmem ⊢
    rw [List.countP_append, List.countP_map]
    by_cases hap : a = p
    · subst hap
      have hq : q ∈ t ∧ are_ha_pair cfg a q = true := by
        rcases List.mem_append.1 hmem with h1 | h2
        · rcases List.mem_map.1 h1 with ⟨x, hx, hxe⟩
          injection hxe with e1 e2
          subst e2
          rcases List.mem_filter.1 hx with ⟨hxt, hha⟩
          exact ⟨hxt, hha⟩
        · exact absurd (mem_haPairsScan h2).1 hat
      have e1 : ((fun pr : Str × Str => decide (pr = (a, q))) ∘ fun h2 => (a, h2))
          = fun h2 => decide (h2 = q) := by
        funext x
        simp [Prod.ext_iff]
      rw [e1, List.countP_filter,
        countP_decide_and_of_nodup (fun x => are_ha_pair cfg a x) hndt hq.1, if_pos hq.2]
      have h0 : (haPairsScan cfg t).countP (fun pr => decide (pr = (a, q))) = 0 := by
        apply List.countP_eq_zero.2
        intro x hx he
        have hxe : x = (a, q) := of_decide_eq_true he
        subst hxe
        exact hat (mem_haPairsScan hx).1
      rw [h0]
    · have hmem' : (p, q) ∈ haPairsScan cfg t := by
        rcases List.mem_append.1 hmem with h1 | h2
        · rcases List.mem_map.1 h1 with ⟨x, hx, hxe⟩
          injection hxe with e1 e2
          exact absurd e1 hap
        · exact h2
      have h0 : (t.filter (fun h2 => are_ha_pair cfg a h2)).countP
          ((fun pr : Str × Str => decide (pr = (p, q))) ∘ fun h2 => (a, h2)) = 0 := by
        apply List.countP_eq_zero.2
        intro x hx he
        simp only [Function.comp_apply, decide_eq_true_eq, Prod.mk.injEq] at he
        exact hap he.1
      rw [h0, ih hndt hmem']

/-- On a duplicate-free list the scan never emits a pair in both orders. -/
theorem not_mem_swap_haPairsScan {cfg : Config} {p q : Str} :
    ∀ {l : List Str}, l.Nodup → (p, q) ∈ haPairsScan cfg l →
      (q, p) ∉ haPairsScan cfg l := by
  intro l
  induction l with
  | nil => intro _ h; simp [haPairsScan] at h
  | cons a t ih =>
    intro hnd hmem hswap
    rcases List.nodup_cons.1 hnd with ⟨hat, hndt⟩
    rw [haPairsScan_cons] at hmem hswap
    rcases List.mem_append.1 hmem with h1 | h2
    · rcases List.mem_map.1 h1 with ⟨x, hx, hxe⟩
      injection hxe with e1 e2
      subst e1
      subst e2
      rcases List.mem_filter.1 hx with ⟨hxt, _⟩
      rcases List.mem_append.1 hswap with g1 | g2
      · rcases List.mem_map.1 g1 with ⟨y, hy, hye⟩
        injection hye with f1 f2
        exact hat (f1 ▸ hxt)
      · exact hat (mem_haPairsScan g2).2.1
    · rcases List.mem_append.1 hswap with g1 | g2
      · rcases List.mem_map.1 g1 with ⟨y, hy, hye⟩
        injection hye with f1 f2
        exact hat (f1 ▸ (mem_haPairsScan h2).2.1)
      · exact ih hndt h2 g2

/-- How often a node occurs as the second member of a scanned pair: once
per HA partner occurring strictly before it. -/
theorem countP_snd_haPairsScan (cfg : Config) (v : Str) :
    ∀ (A B : List Str), (A ++ v :: B).Nodup →
      (haPairsScan cfg (A ++ v :: B)).countP (fun pr => decide (pr.2 = v))
        = A.countP (fun a => are_ha_pair cfg a v) := by
  intro A
  induction A with
  | nil =>
    intro B hnd
    rcases List.nodup_cons.1 hnd with ⟨hvB, hndB⟩
    rw [List.nil_append, haPairsScan_cons, List.countP_append, List.countP_map]
    have e1 : ((fun pr : Str × Str => decide (pr.2 = v)) ∘ fun h2 => (v, h2))
        = fun h2 => decide (h2 = v) := rfl
    rw [e1, List.countP_filter]
    have h1 : B.countP (fun x => decide (x = v) && are_ha_pair cfg v x) = 0 := by
      apply List.countP_eq_zero.2
      intro x hx he
      exact hvB ((of_decide_eq_true ((Bool.and_eq_true _ _).mp he).1) ▸ hx)
    have h2 : (haPairsScan cfg B).countP (fun pr => decide (pr.2 = v)) = 0 := by
      apply List.countP_eq_zero.2
      intro pr hpr he
      exact hvB ((of_decide_eq_true he) ▸ (mem_haPairsScan hpr).2.1)
    rw [h1, h2, List.countP_nil]
  | cons a A' ih =>
    intro B hnd
    rw [List.cons_append, List.nodup_cons] at hnd
    rcases hnd with ⟨haRest, hndRest⟩
    rw [List.cons_append, haPairsScan_cons, List.countP_append, List.countP_map]
    have e1 : ((fun pr : Str × Str => decide (pr.2 = v)) ∘ fun h2 => (a, h2))
        = fun h2 => decide (h2 = v) := rfl
    have hvmem : v ∈ A' ++ v :: B := List.mem_append.2 (Or.inr (List.mem_cons_self v B))
    rw [e1, List.countP_filter,
      countP_decide_and_of_nodup (fun x => are_ha_pair cfg a x) hndRest hvmem,
      ih B hndRest, List.countP_cons]
    cases h : are_ha_pair cfg a v <;> simp [h, Nat.add_comm]

/-- How often a node occurs as the first member of a scanned pair: once
per HA partner occurring strictly after it. -/
theorem countP_fst_haPairsScan (cfg : Config) (v : Str) :
    ∀ (A B : List Str), (A ++ v :: B).Nodup →
      (haPairsScan cfg (A ++ v :: B)).countP (fun pr => decide (pr.1 = v))
        = B.countP (fun b => are_ha_pair cfg v b) := by
  intro A
  induction A with
  | nil =>
    intro B hnd
    rcases List.nodup_cons.1 hnd with ⟨hvB, hndB⟩
    rw [List.nil_append, haPairsScan_cons, List.countP_append, List.countP_map]
    have e1 : ((fun pr : Str × Str => decide (pr.1 = v)) ∘ fun h2 => (v, h2))
        = fun h2 => true := by
      funext x
      simp
    rw [e1]
    have h2 : (haPairsScan cfg B).countP (fun pr => decide (pr.1 = v)) = 0 := by
      apply List.countP_eq_zero.2
      intro pr hpr he
      exact hvB ((of_decide_eq_true he) ▸ (mem_haPairsScan hpr).1)
    rw [h2, Nat.add_zero, List.countP_true, List.countP_eq_length_filter]
  | cons a A' ih =>
    intro B hnd
    rw [List.cons_append, List.nodup_cons] at hnd
    rcases hnd with ⟨haRest, hndRest⟩
    have hvmem : v ∈ A' ++ v :: B := List.mem_append.2 (Or.inr (List.mem_cons_self v B))
    have hav : ¬(a = v) := fun e => haRest (e ▸ hvmem)
    rw [List.cons_append, haPairsScan_cons, List.countP_append, List.countP_map]
    have e1 : ((fun pr : Str × Str => decide (pr.1 = v)) ∘ fun h2 => (a, h2))
        = fun h2 => false := by
      funext x
      simp [hav]
    rw [e1, ih B hndRest]
    simp

/-! ### Helper lemmas: the layout engine -/

theorem prePos_isSome_iff (spring : SpringFn) (cfg : Config) (g : Graph) (d : Option Str)
    (v : Str) :
    (prePos spring cfg g d v).isSome = true ↔ v ∈ layoutScope cfg g d := by
  unfold prePos
  by_cases h : v ∈ layoutScope cfg g d <;> simp [h, apply_ite Option.isSome]

/-- A placed node's coordinates: `x` is its lane's x position and `z` its
Z-level; only `y` depends on the sub-layout. -/
theorem prePos_shape {spring : SpringFn} {cfg : Config} {g : Graph} {d : Option Str}
    {v : Str} {p : Pos3} (h : prePos spring cfg g d v = some p) :
    p.1 = get_lane_x_position cfg (effParsed cfg g v).lane
      ∧ p.2.2 = (effParsed cfg g v).z_level := by
  unfold prePos at h
  by_cases h1 : v ∈ layoutScope cfg g d
  · rw [if_pos h1] at h
    dsimp only at h
    by_cases h2 : (bucket cfg g d v).length = 1
    · rw [if_pos h2] at h
      injection h with h'
      subst h'
      exact ⟨rfl, rfl⟩
    · rw [if_neg h2] at h
      injection h with h'
      subst h'
      exact ⟨rfl, rfl⟩
  · rw [if_neg h1] at h
    cases h

/-- One HA-offset step never changes a node's `x` or `z`. -/
theorem haStep_map_xz (offset : ℚ) (pos : Str → Option Pos3) (pr : Str × Str) (v : Str) :
    (haStep offset pos pr v).map (fun p => (p.1, p.2.2))
      = (pos v).map (fun p => (p.1, p.2.2)) := by
  unfold haStep
  cases h1 : pos pr.1 with
  | none => rfl
  | some p1 =>
    cases h2 : pos pr.2 with
    | none => rfl
    | some p2 =>
      obtain ⟨x1, y1, z1⟩ := p1
      obtain ⟨x2, y2, z2⟩ := p2
      by_cases hv2 : v = pr.2
      · subst hv2
        simp [h2]
      · by_cases hv1 : v = pr.1
        · subst hv1
          simp [hv2, h1]
        · simp [hv1, hv2]

theorem haStep_isSome (offset : ℚ) (pos : Str → Option Pos3) (pr : Str × Str) (v : Str) :
    (haStep offset pos pr v).isSome = (pos v).isSome := by
  have h := congrArg Option.isSome (haStep_map_xz offset pos pr v)
  simpa using h

/-- The whole HA-offset pass never changes any node's `x` or `z`. -/
theorem applyHaOffsets_map_xz (offset : ℚ) :
    ∀ (pairs : List (Str × Str)) (pos : Str → Option Pos3) (v : Str),
      (applyHaOffsets offset pairs pos v).map (fun p => (p.1, p.2.2))
        = (pos v).map (fun p => (p.1, p.2.2)) := by
  intro pairs
  induction pairs with
  | nil => intro pos v; rfl
  | cons pr rest ih =>
    intro pos v
    have estep : applyHaOffsets offset (pr :: rest) pos
        = applyHaOffsets offset rest (haStep offset pos pr) := rfl
    rw [estep, ih (haStep offset pos pr) v, haStep_map_xz]

/-- The offset pass, solved: when every pair is between two distinct
placed nodes, it adds `netDelta` to each node's `y` and changes nothing
else. -/
theorem applyHaOffsets_eq_netDelta (offset : ℚ) :
    ∀ (pairs : List (Str × Str)) (pos : Str → Option Pos3),
      (∀ pr ∈ pairs, (pos pr.1).isSome = true ∧ (pos pr.2).isSome = true) →
      (∀ pr ∈ pairs, pr.1 ≠ pr.2) →
      ∀ v, applyHaOffsets offset pairs pos v
        = (pos v).map (fun p => (p.1, p.2.1 + netDelta offset pairs v, p.2.2)) := by
  intro pairs
  induction pairs with
  | nil =>
    intro pos _ _ v
    show pos v = _
    cases h : pos v with
    | none => rfl
    | some p =>
      obtain ⟨x, y, z⟩ := p
      simp [netDelta]
  | cons pr rest ih =>
    intro pos hdom hne v
    obtain ⟨a, b⟩ := pr
    have hab : ¬(a = b) := hne (a, b) (List.mem_cons_self _ _)
    rcases hdom (a, b) (List.mem_cons_self _ _) with ⟨hsa, hsb⟩
    rcases Option.isSome_iff_exists.1 hsa with ⟨pa, hpa⟩
    rcases Option.isSome_iff_exists.1 hsb with ⟨pb, hpb⟩
    obtain ⟨xa, ya, za⟩ := pa
    obtain ⟨xb, yb, zb⟩ := pb
    have estep : applyHaOffsets offset ((a, b) :: rest) pos
        = applyHaOffsets offset rest (haStep offset pos (a, b)) := rfl
    have hdom' : ∀ pr ∈ rest,
        ((haStep offset pos (a, b)) pr.1).isSome = true
          ∧ ((haStep offset pos (a, b)) pr.2).isSome = true := by
      intro pr hpr
      rcases hdom pr (List.mem_cons_of_mem _ hpr) with ⟨u1, u2⟩
      rw [haStep_isSome, haStep_isSome]
      exact ⟨u1, u2⟩
    have hne' : ∀ pr ∈ rest, pr.1 ≠ pr.2 :=
      fun pr hpr => hne pr (List.mem_cons_of_mem _ hpr)
    rw [estep, ih (haStep offset pos (a, b)) hdom' hne' v]
    simp only [haStep, hpa, hpb]
    by_cases hvb : v = b
    · subst hvb
      rw [hpb, if_pos rfl]
      show some (xb, yb + offset + netDelta offset rest v, zb)
        = some (xb, yb + netDelta offset ((a, v) :: rest) v, zb)
      have harith : yb + offset + netDelta offset rest v
          = yb + netDelta offset ((a, v) :: rest) v := by
        unfold netDelta
        simp only [List.countP_cons, decide_eq_true_eq]
        rw [if_pos trivial, if_neg hab]
        push_cast
        ring
      rw [harith]
    · by_cases hva : v = a
      · subst hva
        rw [hpa, if_neg hvb, if_pos rfl]
        have hbv : ¬(b = v) := fun e => hvb e.symm
        show some (xa, ya - offset + netDelta offset rest v, za)
          = some (xa, ya + netDelta offset ((v, b) :: rest) v, za)
        have harith : ya - offset + netDelta offset rest v
            = ya + netDelta offset ((v, b) :: rest) v := by
          unfold netDelta
          simp only [List.countP_cons, decide_eq_true_eq]
          rw [if_neg hbv, if_pos trivial]
          push_cast
          ring
        rw [harith]
      · rw [if_neg hvb, if_neg hva]
        have hbv : ¬(b = v) := fun e => hvb e.symm
        have hav : ¬(a = v) := fun e => hva e.symm
        have harith : netDelta offset rest v = netDelta offset ((a, b) :: rest) v := by
          unfold netDelta
          simp only [List.countP_cons, decide_eq_true_eq]
          rw [if_neg hbv, if_neg hav]
          push_cast
          ring
        rw [harith]

/-- The finished layout, solved against the pre-offset placement (the
detection flag is on in the shipped registry). -/
theorem create_layout_eq_netDelta (spring : SpringFn) (cfg : Config) (g : Graph)
    (d : Option Str) (hDet : cfg.haPairDetection = true) (v : Str) :
    create_enhanced_3d_layout spring cfg g d v
      = (prePos spring cfg g d v).map
          (fun p => (p.1,
            p.2.1 + netDelta cfg.haPairOffset (find_ha_pairs cfg (layoutScope cfg g d)) v,
            p.2.2)) := by
  unfold create_enhanced_3d_layout
  rw [hDet]
  simp only [if_true]
  apply applyHaOffsets_eq_netDelta
  · intro pr hpr
    have hm := mem_haPairsScan hpr
    have hperm := List.perm_insertionSort (fun a b => lexLe a b = true) (layoutScope cfg g d)
    constructor <;> rw [prePos_isSome_iff]
    · exact hperm.mem_iff.1 hm.1
    · exact hperm.mem_iff.1 hm.2.1
  · intro pr hpr
    exact are_ha_pair_ne (mem_haPairsScan hpr).2.2

/-! ### Helper lemmas: HA clusters and the offset monotonicity -/

theorem are_ha_pair_eq_sameStructure (cfg : Config) (a b : Str) :
    are_ha_pair cfg a b
      = (sameStructure cfg a b
          && decide ((parse cfg a).counter ≠ (parse cfg b).counter)) := by
  rw [Bool.eq_iff_iff]
  unfold are_ha_pair sameStructure
  simp only [Bool.and_eq_true, decide_eq_true_eq]
  tauto

theorem sameStructure_symm (cfg : Config) (a b : Str) :
    sameStructure cfg a b = sameStructure cfg b a := by
  rw [Bool.eq_iff_iff]
  unfold sameStructure
  simp only [decide_eq_true_eq]
  constructor <;> rintro ⟨h1, h2, h3, h4, h5⟩ <;> exact ⟨h2, h1, h3.symm, h4.symm, h5.symm⟩

theorem sameStructure_self_left {cfg : Config} {p q : Str}
    (h : sameStructure cfg p q = true) : sameStructure cfg p p = true := by
  unfold sameStructure at h ⊢
  simp only [decide_eq_true_eq] at h
  simp [h.1]

/-- Two members of one structural cluster have the same partners. -/
theorem sameStructure_congr_right {cfg : Config} {p q : Str}
    (h : sameStructure cfg p q = true) (x : Str) :
    sameStructure cfg x p = sameStructure cfg x q := by
  rw [Bool.eq_iff_iff]
  unfold sameStructure at h ⊢
  simp only [decide_eq_true_eq] at h ⊢
  obtain ⟨h1, h2, h3, h4, h5⟩ := h
  constructor
  · rintro ⟨g1, g2, g3, g4, g5⟩
    exact ⟨g1, h2, g3.trans h3, g4.trans h4, g5.trans h5⟩
  · rintro ⟨g1, g2, g3, g4, g5⟩
    exact ⟨g1, h1, g3.trans h3.symm, g4.trans h4.symm, g5.trans h5.symm⟩

/-- Under distinct counters, the HA test over a segment that excludes `w`
itself counts exactly the structural partners. -/
theorem countP_ha_right_eq {cfg : Config} {scope : List Str}
    (H : DistinctCounters cfg scope) {w : Str} (hw : w ∈ scope) {seg : List Str}
    (hseg : ∀ x ∈ seg, x ∈ scope ∧ x ≠ w) :
    seg.countP (fun x => are_ha_pair cfg x w)
      = seg.countP (fun x => sameStructure cfg x w) := by
  apply List.countP_congr
  intro x hx
  rcases hseg x hx with ⟨hxs, hxw⟩
  rw [are_ha_pair_eq_sameStructure]
  cases hs : sameStructure cfg x w
  · simp
  · simp [H x hxs w hw hxw hs]

theorem countP_ha_left_eq {cfg : Config} {scope : List Str}
    (H : DistinctCounters cfg scope) {w : Str} (hw : w ∈ scope) {seg : List Str}
    (hseg : ∀ x ∈ seg, x ∈ scope ∧ x ≠ w) :
    seg.countP (fun x => are_ha_pair cfg w x)
      = seg.countP (fun x => sameStructure cfg x w) := by
  apply List.countP_congr
  intro x hx
  rcases hseg x hx with ⟨hxs, hxw⟩
  rw [are_ha_pair_eq_sameStructure]
  rw [sameStructure_symm cfg w x]
  cases hs : sameStructure cfg x w
  · simp
  · simp [(H x hxs w hw hxw hs).symm]

/-- Along a detected pair `(p, q)`, the accumulated offset strictly grows:
`p` is pushed down more (or up less) than `q`. -/
theorem netDelta_lt_of_mem {cfg : Config} {scope : List Str} {p q : Str}
    (hnd : scope.Nodup) (H : DistinctCounters cfg scope)
    (hmem : (p, q) ∈ find_ha_pairs cfg scope) (hoff : 0 < cfg.haPairOffset) :
    netDelta cfg.haPairOffset (find_ha_pairs cfg scope) p
      < netDelta cfg.haPairOffset (find_ha_pairs cfg scope) q := by
  have hperm : (sortedStr scope).Perm scope :=
    List.perm_insertionSort (fun a b => lexLe a b = true) scope
  have hlnd : (sortedStr scope).Nodup := hperm.symm.nodup hnd
  rcases exists_split_of_mem_haPairsScan (l := sortedStr scope) hmem with ⟨hha, A, B, C, hsplit⟩
  have hSS : sameStructure cfg p q = true := by
    rw [are_ha_pair_eq_sameStructure] at hha
    exact ((Bool.and_eq_true _ _).mp hha).1
  have hpq : p ≠ q := are_ha_pair_ne hha
  -- nodup pieces of the split
  have hnd2 : (A ++ p :: (B ++ q :: C)).Nodup := hsplit ▸ hlnd
  rw [List.nodup_append] at hnd2
  obtain ⟨hAnd, hconsnd, hAdisj⟩ := hnd2
  rw [List.nodup_cons] at hconsnd
  obtain ⟨hpBqC, hBqCnd⟩ := hconsnd
  have hBqC := hBqCnd
  rw [List.nodup_append] at hBqC
  obtain ⟨hBnd, hqCnd, hBdisj⟩ := hBqC
  rw [List.nodup_cons] at hqCnd
  obtain ⟨hqC, hCnd⟩ := hqCnd
  -- membership transport into the scope
  have hmemScope : ∀ x, x ∈ A ++ p :: (B ++ q :: C) → x ∈ scope := by
    intro x hx
    exact hperm.mem_iff.1 (hsplit ▸ hx)
  have hpS : p ∈ scope :=
    hmemScope p (List.mem_append.2 (Or.inr (List.mem_cons_self _ _)))
  have hqS : q ∈ scope := by
    refine hmemScope q (List.mem_append.2 (Or.inr (List.mem_cons_of_mem _ ?_)))
    exact List.mem_append.2 (Or.inr (List.mem_cons_self _ _))
  -- the four raw counts
  have hS_p := countP_snd_haPairsScan cfg p A (B ++ q :: C) (hsplit ▸ hlnd)
  have hF_p := countP_fst_haPairsScan cfg p A (B ++ q :: C) (hsplit ▸ hlnd)
  have hsplit2 : sortedStr scope = (A ++ p :: B) ++ q :: C := by
    rw [hsplit]
    simp [List.append_assoc]
  have hnd3 : ((A ++ p :: B) ++ q :: C).Nodup := hsplit2 ▸ hlnd
  have hS_q := countP_snd_haPairsScan cfg q (A ++ p :: B) C hnd3
  have hF_q := countP_fst_haPairsScan cfg q (A ++ p :: B) C hnd3
  rw [← hsplit] at hS_p hF_p
  rw [← hsplit2] at hS_q hF_q
  -- element-wise side conditions on each segment
  have hsegA : ∀ x ∈ A, x ∈ scope ∧ x ≠ p := by
    intro x hx
    refine ⟨hmemScope x (List.mem_append.2 (Or.inl hx)), fun e => ?_⟩
    cases e
    exact hAdisj hx (List.mem_cons_self _ _)
  have hsegBqC : ∀ x ∈ B ++ q :: C, x ∈ scope ∧ x ≠ p := by
    intro x hx
    refine ⟨hmemScope x (List.mem_append.2 (Or.inr (List.mem_cons_of_mem _ hx))), fun e => ?_⟩
    cases e
    exact hpBqC hx
  have hnd3' := hnd3
  rw [List.nodup_append] at hnd3'
  obtain ⟨hApBnd, hqCnd2, hApBdisj⟩ := hnd3'
  have hmemScope2 : ∀ x, x ∈ (A ++ p :: B) ++ q :: C → x ∈ scope := by
    intro x hx
    exact hperm.mem_iff.1 (hsplit2 ▸ hx)
  have hsegApB : ∀ x ∈ A ++ p :: B, x ∈ scope ∧ x ≠ q := by
    intro x hx
    refine ⟨hmemScope2 x (List.mem_append.2 (Or.inl hx)), fun e => ?_⟩
    cases e
    exact hApBdisj hx (List.mem_cons_self _ _)
  have hsegC : ∀ x ∈ C, x ∈ scope ∧ x ≠ q := by
    intro x hx
    refine ⟨hmemScope2 x (List.mem_append.2 (Or.inr (List.mem_cons_of_mem _ hx))), fun e => ?_⟩
    cases e
    exact hqC hx
  -- structural facts about p and q themselves
  have sSqp : sameStructure cfg q p = true := (sameStructure_symm cfg p q) ▸ hSS
  have sSpp : sameStructure cfg p p = true := sameStructure_self_left hSS
  have efun : (fun x => sameStructure cfg x q) = (fun x => sameStructure cfg x p) :=
    funext fun x => (sameStructure_congr_right hSS x).symm
  -- the four counts, in structural-partner form
  have eSp : (haPairsScan cfg (sortedStr scope)).countP (fun pr => decide (pr.2 = p))
      = A.countP (fun x => sameStructure cfg x p) := by
    rw [hS_p, countP_ha_right_eq H hpS hsegA]
  have eFp : (haPairsScan cfg (sortedStr scope)).countP (fun pr => decide (pr.1 = p))
      = B.countP (fun x => sameStructure cfg x p)
        + (C.countP (fun x => sameStructure cfg x p) + 1) := by
    rw [hF_p, countP_ha_left_eq H hpS hsegBqC, List.countP_append, List.countP_cons,
      if_pos sSqp]
  have eSq : (haPairsScan cfg (sortedStr scope)).countP (fun pr => decide (pr.2 = q))
      = A.countP (fun x => sameStructure cfg x p)
        + (B.countP (fun x => sameStructure cfg x p) + 1) := by
    rw [hS_q, countP_ha_right_eq H hqS hsegApB, efun, List.countP_append, List.countP_cons,
      if_pos sSpp]
  have eFq : (haPairsScan cfg (sortedStr scope)).countP (fun pr => decide (pr.1 = q))
      = C.countP (fun x => sameStructure cfg x p) := by
    rw [hF_q, countP_ha_left_eq H hqS hsegC, efun]
  -- conclude
  unfold netDelta
  apply mul_lt_mul_of_pos_left ?_ hoff
  rw [show find_ha_pairs cfg scope = haPairsScan cfg (sortedStr scope) from rfl,
    eSp, eFp, eSq, eFq]
  push_cast
  linarith

/-! ### Helper lemmas: layout shape and configuration validation -/

/-- Every coordinate the finished layout assigns has the node's lane x
position as `x` and its Z-level as `z` (the HA pass only moves `y`). -/
theorem create_layout_shape {spring : SpringFn} {cfg : Config} {g : Graph}
    {d : Option Str} {v : Str} {p : Pos3}
    (h : create_enhanced_3d_layout spring cfg g d v = some p) :
    p.1 = get_lane_x_position cfg (effParsed cfg g v).lane
      ∧ p.2.2 = (effParsed cfg g v).z_level := by
  unfold create_enhanced_3d_layout at h
  by_cases hdet : cfg.haPairDetection = true
  · rw [if_pos hdet] at h
    have hmap := applyHaOffsets_map_xz cfg.haPairOffset
      (find_ha_pairs cfg (layoutScope cfg g d)) (prePos spring cfg g d) v
    rw [h] at hmap
    cases hpre : prePos spring cfg g d v with
    | none =>
      rw [hpre] at hmap
      cases hmap
    | some p' =>
      rw [hpre] at hmap
      simp only [Option.map_some', Option.some.injEq, Prod.mk.injEq] at hmap
      rcases prePos_shape hpre with ⟨s1, s2⟩
      exact ⟨hmap.1.trans s1, hmap.2.trans s2⟩
  · rw [if_neg hdet] at h
    exact prePos_shape h

/-- What passing validation means: equal key sets for the two position
tables, and every configured lane within the configured bounds. -/
theorem validate_config_true_iff (cfg : Config) :
    validate_config cfg = true ↔
      ((∀ k ∈ cfg.positionToZ.map (fun e => e.1), k ∈ cfg.positionToLane.map (fun e => e.1))
        ∧ (∀ k ∈ cfg.positionToLane.map (fun e => e.1), k ∈ cfg.positionToZ.map (fun e => e.1))
        ∧ (∀ e ∈ cfg.positionToLane, cfg.laneMin ≤ e.2 ∧ e.2 ≤ cfg.laneMax)) := by
  unfold validate_config
  simp [List.all_eq_true]
  tauto

/-! ### The claims -/

/-- Claim C1: `classify("npccosr01")` returns datacenter "npc", position
"co", device type "sr", sequence "01", valid, parse_method full; its
Z-layer is the registry's configured value for "co" (3.5) and its lane is
the registry's configured lane for "co" clamped to `[LANE_MIN, LANE_MAX]`. -/
theorem classify_npccosr01_full :
    (parse defaultConfig (codes "npccosr01")
      = { hostname := codes "npccosr01"
          datacenter := some (codes "npc")
          position := some (codes "co")
          type := some (codes "sr")
          counter := some (codes "01")
          z_level := get_z_layer defaultConfig (codes "co")
          lane := get_lane defaultConfig (codes "co")
          lane_x := get_lane_x_position defaultConfig (get_lane defaultConfig (codes "co"))
          icon_config := ⟨"diamond", 12, "#FF6B6B", "Switch Router"⟩
          valid := true
          parse_method := .full })
    ∧ get_z_layer defaultConfig (codes "co") = 7/2
    ∧ get_lane defaultConfig (codes "co")
        = max defaultConfig.laneMin (min defaultConfig.laneMax
            ((defaultConfig.positionToLane.lookup (codes "co")).getD 0)) := by
  decide

/-- Claim C2: the layout is reproducible — when the spring sub-layout
respects its seed (identical seeded inputs give identical outputs, whatever
the ambient entropy), two runs of `create_enhanced_3d_layout` on the same
graph, filter and registry produce bit-identical coordinate maps, because
the engine always passes the fixed configured seed. -/
theorem create_enhanced_3d_layout_reproducible
    (springImpl : Nat → SpringFn)
    (hseed : ∀ e1 e2 ns es k it sd v,
      springImpl e1 ns es k it sd v = springImpl e2 ns es k it sd v)
    (cfg : Config) (g : Graph) (d : Option Str) (e1 e2 : Nat) :
    create_enhanced_3d_layout (springImpl e1) cfg g d
      = create_enhanced_3d_layout (springImpl e2) cfg g d := by
  have h : springImpl e1 = springImpl e2 := by
    funext ns es k it sd v
    exact hseed e1 e2 ns es k it sd v
  rw [h]

theorem create_enhanced_3d_layout_reproducible_witness :
    create_enhanced_3d_layout ((fun _ : Nat => springZero) 0) defaultConfig graphPair none
      = create_enhanced_3d_layout ((fun _ : Nat => springZero) 1) defaultConfig graphPair none :=
  create_enhanced_3d_layout_reproducible (fun _ => springZero)
    (fun _ _ _ _ _ _ _ _ => rfl) defaultConfig graphPair none 0 1

/-- Claim C3: relation type is part of edge identity in the combined
multigraph: one physical and one BGP edge between A and B stay two distinct
edges, and in general every edge of each dataset is retained with its own
relation tag (counts per relation equal the dataset sizes, so edges of
different relations are never merged or overwritten). -/
theorem combined_multigraph_keeps_relations :
    (combinedEdges [⟨codes "A", codes "B"⟩] [] [⟨codes "A", codes "B"⟩]
        = [⟨codes "A", codes "B", .physical⟩, ⟨codes "A", codes "B", .bgp⟩])
    ∧ (∀ physical_edges hsrp_edges bgp_edges : List EdgeRec,
        (combinedEdges physical_edges hsrp_edges bgp_edges).countP
            (fun e => decide (e.link_type = .physical)) = physical_edges.length
        ∧ (combinedEdges physical_edges hsrp_edges bgp_edges).countP
            (fun e => decide (e.link_type = .hsrp)) = hsrp_edges.length
        ∧ (combinedEdges physical_edges hsrp_edges bgp_edges).countP
            (fun e => decide (e.link_type = .bgp)) = bgp_edges.length) := by
  refine ⟨by decide, ?_⟩
  intro pe he be
  have hsame : ∀ (l : List EdgeRec) (tag : LinkType),
      (l.map (fun e => CombinedEdge.mk e.source e.target tag)).countP
        (fun e => decide (e.link_type = tag)) = l.length := by
    intro l tag
    rw [List.countP_map,
      show ((fun e : CombinedEdge => decide (e.link_type = tag))
          ∘ (fun e : EdgeRec => CombinedEdge.mk e.source e.target tag))
        = fun _ => true from funext fun e => by simp,
      List.countP_true]
  have hdiff : ∀ (l : List EdgeRec) (tagA tagB : LinkType), tagA ≠ tagB →
      (l.map (fun e => CombinedEdge.mk e.source e.target tagB)).countP
        (fun e => decide (e.link_type = tagA)) = 0 := by
    intro l tagA tagB hne
    rw [List.countP_map,
      show ((fun e : CombinedEdge => decide (e.link_type = tagA))
          ∘ (fun e : EdgeRec => CombinedEdge.mk e.source e.target tagB))
        = fun _ => false from funext fun e => decide_eq_false (Ne.symm hne)]
    simp [List.countP_false]
  unfold combinedEdges
  refine ⟨?_, ?_, ?_⟩
  · rw [List.countP_append, List.countP_append, hsame,
      hdiff he LinkType.physical LinkType.hsrp (by decide),
      hdiff be LinkType.physical LinkType.bgp (by decide)]
    omega
  · rw [List.countP_append, List.countP_append,
      hdiff pe LinkType.hsrp LinkType.physical (by decide), hsame,
      hdiff be LinkType.hsrp LinkType.bgp (by decide)]
    omega
  · rw [List.countP_append, List.countP_append,
      hdiff pe LinkType.bgp LinkType.physical (by decide),
      hdiff he LinkType.bgp LinkType.hsrp (by decide), hsame]
    omega

/-- Claim C4 (counterexample): the claim quantifies over every input list,
but a list with a duplicated hostname makes `find_ha_pairs` report the same
unordered pair twice — "(npccosr01, npccosr02)" occurs with multiplicity 2. -/
theorem find_ha_pairs_duplicate_counterexample :
    (find_ha_pairs defaultConfig
        [codes "npccosr01", codes "npccosr01", codes "npccosr02"]).countP
      (fun pr => decide (pr = (codes "npccosr01", codes "npccosr02"))) = 2 := by
  decide

/-- Claim C4 (amended): on the three-hostname set exactly the single pair
(npccosr01, npccosr02) is returned; and for every duplicate-free input
list, every reported pair has distinct members, is never also reported in
the swapped order, and occurs exactly once in the output. -/
theorem find_ha_pairs_exactly_once (hs : List Str) (hnd : hs.Nodup) :
    (find_ha_pairs defaultConfig
        [codes "npccosr01", codes "npccosr02", codes "wpcaccsw11"]
      = [(codes "npccosr01", codes "npccosr02")])
    ∧ ∀ p q : Str, (p, q) ∈ find_ha_pairs defaultConfig hs →
        (p ≠ q ∧ (q, p) ∉ find_ha_pairs defaultConfig hs
          ∧ (find_ha_pairs defaultConfig hs).countP
              (fun pr => decide (pr = (p, q))) = 1) := by
  have hnds : (sortedStr hs).Nodup :=
    (List.perm_insertionSort (fun a b => lexLe a b = true) hs).symm.nodup hnd
  refine ⟨by decide, ?_⟩
  intro p q hmem
  exact ⟨are_ha_pair_ne (mem_haPairsScan hmem).2.2,
    not_mem_swap_haPairsScan hnds hmem,
    countP_pair_haPairsScan hnds hmem⟩

theorem find_ha_pairs_exactly_once_witness :
    ([codes "npccosr01", codes "npccosr02", codes "wpcaccsw11"] : List Str).Nodup
    ∧ (codes "npccosr02", codes "npccosr01")
        ∉ find_ha_pairs defaultConfig
            [codes "npccosr01", codes "npccosr02", codes "wpcaccsw11"] :=
  ⟨by decide,
    ((find_ha_pairs_exactly_once
        [codes "npccosr01", codes "npccosr02", codes "wpcaccsw11"] (by decide)).2
      (codes "npccosr01") (codes "npccosr02") (by decide)).2.1⟩

/-- Claim C5 (counterexample): the classifier echoes the original input in
the `hostname` field, so `classify(h.upper())` and `classify(h.lower())`
are not equal as whole identities: at `h = "npccosr01"` they differ (in
that field alone). -/
theorem classify_case_counterexample :
    parse defaultConfig (strUpper (codes "npccosr01"))
      ≠ parse defaultConfig (strLower (codes "npccosr01")) := by
  decide

/-- Claim C5 (amended): classification is case-insensitive in every field
except the raw hostname echo: for every registry and hostname, the
uppercased and the lowercased input agree on datacenter, position, type,
counter, Z-level, lane, lane x, icon, validity and parse method. -/
theorem classify_case_insensitive_except_hostname (cfg : Config) (h : Str) :
    { parse cfg (strUpper h) with hostname := [] }
      = { parse cfg (strLower h) with hostname := [] } :=
  parse_congr_clean cfg (clean_strUpper_eq_clean_strLower h)

/-- Claim C6 (counterexample): four case-variants of one cluster, all
placed at the same point by the sub-layout; (npccosr01, npccosr02) is a
detected HA pair, yet after the offset pass both members still carry
identical coordinates — the ±offset pass does not guarantee separation,
because overlapping pairs of the cluster cancel each other's offsets. -/
theorem ha_pair_offset_counterexample :
    (codes "npccosr01", codes "npccosr02")
        ∈ find_ha_pairs defaultConfig (layoutScope defaultConfig graphQuad none)
    ∧ prePos springZero defaultConfig graphQuad none (codes "npccosr01")
        = prePos springZero defaultConfig graphQuad none (codes "npccosr02")
    ∧ create_enhanced_3d_layout springZero defaultConfig graphQuad none (codes "npccosr01")
        = create_enhanced_3d_layout springZero defaultConfig graphQuad none (codes "npccosr02") := by
  decide

/-- Claim C6 (amended): the layout applies the fixed symmetric y offset to
every detected HA pair; provided the laid-out hostnames have pairwise
distinct counters within each structural cluster, a detected pair whose
members the sub-layout placed at identical coordinates ends at distinct
final coordinates. -/
theorem ha_pair_offset_separates (spring : SpringFn) (g : Graph) (d : Option Str)
    (hnd : g.nodeList.Nodup)
    (H : DistinctCounters defaultConfig (layoutScope defaultConfig g d))
    (p q : Str)
    (hmem : (p, q) ∈ find_ha_pairs defaultConfig (layoutScope defaultConfig g d))
    (hsame : prePos spring defaultConfig g d p = prePos spring defaultConfig g d q) :
    create_enhanced_3d_layout spring defaultConfig g d p
      ≠ create_enhanced_3d_layout spring defaultConfig g d q := by
  rw [create_layout_eq_netDelta spring defaultConfig g d rfl p,
    create_layout_eq_netDelta spring defaultConfig g d rfl q, hsame]
  have hscope : q ∈ layoutScope defaultConfig g d := by
    have hperm := List.perm_insertionSort (fun a b => lexLe a b = true)
      (layoutScope defaultConfig g d)
    exact hperm.mem_iff.1 (mem_haPairsScan hmem).2.1
  have hpre : (prePos spring defaultConfig g d q).isSome = true := by
    rw [prePos_isSome_iff]
    exact hscope
  rcases Option.isSome_iff_exists.1 hpre with ⟨⟨x, y, z⟩, hq⟩
  rw [hq]
  have hscopeNd : (layoutScope defaultConfig g d).Nodup :=
    List.Nodup.filter _ hnd
  have hlt := netDelta_lt_of_mem hscopeNd H hmem (by decide)
  simp only [Option.map_some', ne_eq, Option.some.injEq, Prod.mk.injEq]
  intro hcon
  have hy := hcon.2.1
  exact absurd (by linarith :
    netDelta defaultConfig.haPairOffset
        (find_ha_pairs defaultConfig (layoutScope defaultConfig g d)) p
      = netDelta defaultConfig.haPairOffset
        (find_ha_pairs defaultConfig (layoutScope defaultConfig g d)) q)
    (ne_of_lt hlt)

theorem ha_pair_offset_separates_witness :
    graphPair.nodeList.Nodup
    ∧ DistinctCounters defaultConfig (layoutScope defaultConfig graphPair none)
    ∧ (codes "npccosr01", codes "npccosr02")
        ∈ find_ha_pairs defaultConfig (layoutScope defaultConfig graphPair none)
    ∧ prePos springZero defaultConfig graphPair none (codes "npccosr01")
        = prePos springZero defaultConfig graphPair none (codes "npccosr02")
    ∧ create_enhanced_3d_layout springZero defaultConfig graphPair none (codes "npccosr01")
        ≠ create_enhanced_3d_layout springZero defaultConfig graphPair none (codes "npccosr02") :=
  ⟨by decide, by decide, by decide, by decide,
    ha_pair_offset_separates springZero graphPair none (by decide) (by decide)
      (codes "npccosr01") (codes "npccosr02") (by decide) (by decide)⟩

/-- Claim C7: in every layout result — after bucket placement and still
after the final HA offset pass — every assigned coordinate has the node's
lane x position as `x` and its Z-level as `z`; hence nodes sharing a lane
and a Z-layer share the `x` coordinate (the lane's x position) and can
differ only in `y`. -/
theorem layout_same_lane_same_x (spring : SpringFn) (cfg : Config) (g : Graph)
    (d : Option Str) :
    (∀ v p, prePos spring cfg g d v = some p →
        p.1 = get_lane_x_position cfg (effParsed cfg g v).lane
          ∧ p.2.2 = (effParsed cfg g v).z_level)
    ∧ (∀ v p, create_enhanced_3d_layout spring cfg g d v = some p →
        p.1 = get_lane_x_position cfg (effParsed cfg g v).lane
          ∧ p.2.2 = (effParsed cfg g v).z_level)
    ∧ (∀ u v pu pv, create_enhanced_3d_layout spring cfg g d u = some pu →
        create_enhanced_3d_layout spring cfg g d v = some pv →
        (effParsed cfg g u).lane = (effParsed cfg g v).lane →
        (effParsed cfg g u).z_level = (effParsed cfg g v).z_level →
        pu.1 = pv.1 ∧ pu.2.2 = pv.2.2) := by
  refine ⟨fun v p h => prePos_shape h, fun v p h => create_layout_shape h, ?_⟩
  intro u v pu pv hu hv hlane hz
  rcases create_layout_shape hu with ⟨e1, e2⟩
  rcases create_layout_shape hv with ⟨f1, f2⟩
  rw [e1, f1, e2, f2, hlane, hz]
  exact ⟨rfl, rfl⟩

theorem layout_same_lane_same_x_witness :
    create_enhanced_3d_layout springZero defaultConfig graphPair none (codes "npccosr01")
        = some (0, -(3/10), 7/2)
    ∧ create_enhanced_3d_layout springZero defaultConfig graphPair none (codes "npccosr02")
        = some (0, 3/10, 7/2)
    ∧ ((0 : ℚ), -(3/10 : ℚ), (7/2 : ℚ)).1 = ((0 : ℚ), (3/10 : ℚ), (7/2 : ℚ)).1 :=
  ⟨by decide, by decide,
    ((layout_same_lane_same_x springZero defaultConfig graphPair none).2.2
        (codes "npccosr01") (codes "npccosr02") _ _
        (by decide) (by decide) (by decide) (by decide)).1⟩

/-- Claim C8: a hostname matching neither parsing strategy classifies to
`valid = false`, `parse_method = none`, with the finite default coordinates
(mid-layer `z = 1.5`, center lane 0, default icon); the classifier is a
total function, so no hostname can make it fail. -/
theorem classify_no_match_defaults (h : Str)
    (h1 : matchFull defaultConfig (strLower (stripStr h)) = none)
    (h2 : matchTypeCount defaultConfig (strLower (stripStr h)) = none) :
    parse defaultConfig h
      = { hostname := h, datacenter := none, position := none, type := none,
          counter := none, z_level := 3/2, lane := 0, lane_x := 0,
          icon_config := DEFAULT_ICON, valid := false, parse_method := .nomatch } := by
  unfold parse parseCore
  rw [h1, h2]
  rfl

theorem classify_no_match_defaults_witness :
    matchFull defaultConfig (strLower (stripStr (codes "not-a-hostname"))) = none
    ∧ matchTypeCount defaultConfig (strLower (stripStr (codes "not-a-hostname"))) = none
    ∧ parse defaultConfig (codes "not-a-hostname")
        = { hostname := codes "not-a-hostname", datacenter := none, position := none,
            type := none, counter := none, z_level := 3/2, lane := 0, lane_x := 0,
            icon_config := DEFAULT_ICON, valid := false, parse_method := .nomatch } :=
  ⟨by decide, by decide, classify_no_match_defaults (codes "not-a-hostname")
    (by decide) (by decide)⟩

/-- Claim C9 (counterexample): a registry whose "co" lane (99) violates the
bounds fails validation, yet the classifier and the layout engine still run
over it: the lane is silently clamped to 10 and a layout position is
produced, so an inconsistent registry is not fatal to the processing path
(no entry point of the pipeline consults the validator). -/
theorem malformed_config_not_fatal_counterexample :
    validate_config badLaneConfig = false
    ∧ (parse badLaneConfig (codes "npccosr01")).valid = true
    ∧ (parse badLaneConfig (codes "npccosr01")).lane = 10
    ∧ create_enhanced_3d_layout springZero badLaneConfig graphSingle none (codes "npccosr01")
        = some (20, 0, 7/2) := by
  decide

/-- Claim C9 (amended): malformed static configuration is detected by
`validate_config` — it returns true precisely when the Z-layer and lane
tables carry the same key set and every configured lane is within
`[LANE_MIN, LANE_MAX]`, and the shipped registry passes — but validation
is advisory, not fatal: it returns a boolean consumed only by the
standalone config/test entry points, while the processing path clamps
out-of-range lanes instead of failing. -/
theorem validate_config_detects (cfg : Config) (hv : validate_config cfg = true) :
    ((∀ k ∈ cfg.positionToZ.map (fun e => e.1), k ∈ cfg.positionToLane.map (fun e => e.1))
      ∧ (∀ k ∈ cfg.positionToLane.map (fun e => e.1), k ∈ cfg.positionToZ.map (fun e => e.1))
      ∧ (∀ e ∈ cfg.positionToLane, cfg.laneMin ≤ e.2 ∧ e.2 ≤ cfg.laneMax))
    ∧ validate_config defaultConfig = true :=
  ⟨(validate_config_true_iff cfg).mp hv, by decide⟩

theorem validate_config_detects_witness :
    validate_config defaultConfig = true
    ∧ ∀ e ∈ defaultConfig.positionToLane,
        defaultConfig.laneMin ≤ e.2 ∧ e.2 ≤ defaultConfig.laneMax :=
  ⟨by decide, ((validate_config_detects defaultConfig (by decide)).1).2.2⟩

/-- Claim C10: two hostnames that both parse through the type_count
fallback with the same device type and different counters form an HA pair:
their absent datacenters and positions compare equal (Python
`None == None`), so the structural test passes on type alone. -/
theorem type_count_fallback_ha_pair (h1 h2 t c1 c2 : Str)
    (m1f : matchFull defaultConfig (strLower (stripStr h1)) = none)
    (m1 : matchTypeCount defaultConfig (strLower (stripStr h1)) = some (t, c1))
    (m2f : matchFull defaultConfig (strLower (stripStr h2)) = none)
    (m2 : matchTypeCount defaultConfig (strLower (stripStr h2)) = some (t, c2))
    (hne : c1 ≠ c2) :
    are_ha_pair defaultConfig h1 h2 = true
    ∧ (parse defaultConfig h1).datacenter = none
    ∧ (parse defaultConfig h1).position = none := by
  have e1 : parse defaultConfig h1
      = { hostname := h1, datacenter := none, position := none, type := some t,
          counter := some c1, z_level := 3/2, lane := 0, lane_x := 0,
          icon_config := get_icon_config defaultConfig (some t), valid := true,
          parse_method := .type_count } := by
    unfold parse parseCore
    rw [m1f, m1]
  have e2 : parse defaultConfig h2
      = { hostname := h2, datacenter := none, position := none, type := some t,
          counter := some c2, z_level := 3/2, lane := 0, lane_x := 0,
          icon_config := get_icon_config defaultConfig (some t), valid := true,
          parse_method := .type_count } := by
    unfold parse parseCore
    rw [m2f, m2]
  refine ⟨?_, by rw [e1], by rw [e1]⟩
  unfold are_ha_pair
  rw [e1, e2]
  simp [hne]

theorem type_count_fallback_ha_pair_witness :
    matchFull defaultConfig (strLower (stripStr (codes "sr01"))) = none
    ∧ matchTypeCount defaultConfig (strLower (stripStr (codes "sr01")))
        = some (codes "sr", codes "01")
    ∧ are_ha_pair defaultConfig (codes "sr01") (codes "sr02") = true :=
  ⟨by decide, by decide,
    (type_count_fallback_ha_pair (codes "sr01") (codes "sr02") (codes "sr")
      (codes "01") (codes "02") (by decide) (by decide) (by decide) (by decide)
      (by decide)).1⟩

end TopologyViz
